import Mathlib

/-!
Verification of the CTA valuation RAG pipeline (`arquivos.txt`):
chunking, ingestion over a batch of PDF files, vector-store indexing and
the chat/query path. Pure components are translated directly from the
source; external collaborators (the LangChain text splitter, the Qdrant
vector store, the embedding model and the LLM) are modelled from the
contracts stated in the specification and passed in as parameters.
-/

namespace CTA

/-- Chunker configuration from `ler_arquivos` (`RecursiveCharacterTextSplitter(chunk_size=800, ...)`). -/
def chunk_size : Nat := 800

/-- Chunker configuration from `ler_arquivos` (`chunk_overlap=100`). -/
def chunk_overlap : Nat := 100

/-- Modelled from the spec: the Chunker. The splitter implementation
(`RecursiveCharacterTextSplitter` from `langchain_text_splitters`) is
third-party library code not present in the repository; the spec states
its contract as: chunks of at most `chunk_size` characters, where
"overlap is applied by re-including the trailing `chunk_overlap`
characters of chunk i at the start of chunk i+1", and an empty text
yields zero chunks. -/
def splitChunksF : Nat → List Char → List (List Char)
  | 0, _ => []
  | fuel + 1, t =>
      if t.length = 0 then []
      else if t.length ≤ chunk_size then [t]
      else t.take chunk_size :: splitChunksF fuel (t.drop (chunk_size - chunk_overlap))

/-- The chunker: `splitChunksF` run with enough fuel to consume the text
(each recursive step removes `chunk_size - chunk_overlap = 700` characters). -/
def splitChunks (t : List Char) : List (List Char) :=
  splitChunksF t.length t

/-- The last `n` characters of a chunk. -/
def lastN (n : Nat) (l : List Char) : List Char :=
  l.drop (l.length - n)

/-- Reassembly of a chunk list: the first chunk in full, then every later
chunk with its leading overlap removed. -/
def reconstruct : List (List Char) → List Char
  | [] => []
  | c :: cs => c ++ (cs.map (List.drop chunk_overlap)).flatten

/-- Metadata attached to each chunk in `ler_arquivos`:
`{"path": arquivo, "title": title, "page": i // 2, "doc_type": "pdf"}`. -/
structure ChunkMetadata where
  path : String
  title : String
  page : Nat
  doc_type : String
deriving DecidableEq

/-- The basename of a path (`os.path.basename`): the part after the last slash. -/
def baseName (p : String) : String :=
  String.mk ((p.data.reverse.takeWhile (fun c => c ≠ '/')).reverse)

/-- The root of `os.path.splitext`: everything before the final dot, unless
every character before that dot is itself a dot. -/
def splitextRoot (s : String) : String :=
  let cs := s.data
  let afterDot := cs.reverse.takeWhile (fun c => c ≠ '.')
  if afterDot.length = cs.length then s
  else
    let dotIndex := cs.length - afterDot.length - 1
    if (cs.take dotIndex).all (fun c => c = '.') then s
    else String.mk (cs.take dotIndex)

/-- `title = os.path.splitext(os.path.basename(arquivo))[0]` in `ler_arquivos`. -/
def titulo (path : String) : String :=
  splitextRoot (baseName path)

/-- The page marker prepended to each page's text in `ler_arquivos`:
`conteudo += f"Página ...: ..."` followed by a blank line. -/
def paginaMarcador (i : Nat) (p : String) : String :=
  "Página " ++ toString (i + 1) ++ ": " ++ p ++ "\n\n"

/-- The concatenated text body built in `ler_arquivos`: pages with no
extractable text (falsy `page_text`) are skipped. -/
def buildConteudo (pages : List String) : String :=
  String.join (pages.enum.map fun q => if q.2 = "" then "" else paginaMarcador q.1 q.2)

/-- One input file of the ingestion batch: its path and the outcome of
`PyPDF2.PdfReader` + per-page `extract_text` (an exception or the page texts). -/
structure Arquivo where
  path : String
  pages : Except String (List String)

/-- Processing of one file inside the loop of `ler_arquivos`: non-PDF paths
contribute nothing, a raised extraction error is caught and contributes
nothing, and a successful PDF is chunked with metadata `page = i / 2`. -/
def processaArquivo (a : Arquivo) : List (List Char) × List ChunkMetadata :=
  if (".pdf".data).isSuffixOf a.path.data then
    match a.pages with
    | Except.error _ => ([], [])
    | Except.ok pages =>
        let conteudo := buildConteudo pages
        let chunks := splitChunks conteudo.data
        (chunks, chunks.enum.map fun q => ⟨a.path, titulo a.path, q.1 / 2, "pdf"⟩)
  else ([], [])

/-- The accumulation loop of `ler_arquivos`: `all_chunks` and `all_metadata`
extended file by file. -/
def lerArquivos : List Arquivo → List (List Char) × List ChunkMetadata
  | [] => ([], [])
  | a :: rest =>
      let r := processaArquivo a
      let rr := lerArquivos rest
      (r.1 ++ rr.1, r.2 ++ rr.2)

/-- Modelled from the spec: embedding vectors are opaque fixed-dimension
numeric vectors; the similarity used by the dot-product collection is the
dot product of the query vector with the stored vector. -/
abbrev Vec := List Int

def dotProduct (u v : Vec) : Int :=
  (List.zipWith (fun a b => a * b) u v).sum

/-- The distance metric of the collection created by `indexar_chunks`
(`Distance.DOT`). -/
inductive Distance where
  | DOT
deriving DecidableEq

/-- A stored chunk in the vector store: text, embedding vector and metadata. -/
structure Point where
  text : List Char
  vector : Vec
  metadata : ChunkMetadata
deriving DecidableEq

/-- Modelled from the spec: a named collection of the vector store, with a
fixed vector dimension and distance metric. -/
structure Collection where
  dim : Nat
  distance : Distance
  points : List Point
deriving DecidableEq

/-- Modelled from the spec: the Qdrant vector store (an external service the
source talks to over HTTP), as a map from collection names to collections. -/
abbrev VectorStore := List (String × Collection)

def collectionExists (vs : VectorStore) (name : String) : Bool :=
  vs.any (fun c => c.1 == name)

def deleteCollection (vs : VectorStore) (name : String) : VectorStore :=
  vs.filter (fun c => c.1 != name)

def createCollection (vs : VectorStore) (name : String) (dim : Nat) (d : Distance) :
    VectorStore :=
  (name, ⟨dim, d, []⟩) :: vs

/-- The drop-and-recreate sequence of `indexar_chunks`: delete the collection
if it exists, then create it fresh. -/
def replaceCollection (vs : VectorStore) (name : String) (dim : Nat) (d : Distance) :
    VectorStore :=
  createCollection (if collectionExists vs name then deleteCollection vs name else vs)
    name dim d

/-- `qdrant.add_texts(chunks, metadatas=metadata)`: embed each chunk and
append the resulting points, in order, to the named collection. -/
def addTexts (embed : List Char → Vec) (vs : VectorStore) (name : String)
    (chunks : List (List Char)) (metas : List ChunkMetadata) : VectorStore :=
  vs.map fun c =>
    if c.1 == name then
      (c.1, { c.2 with
        points := c.2.points ++ (chunks.zip metas).map fun q => ⟨q.1, embed q.1, q.2⟩ })
    else c

/-- Modelled from the spec: `search(q, k)` returns the k best points of the
collection ordered best-first by the configured similarity, stable for ties. -/
def searchCollection (c : Collection) (q : Vec) (k : Nat) : List Point :=
  (c.points.mergeSort
    (fun a b => decide (dotProduct q b.vector ≤ dotProduct q a.vector))).take k

def searchStore (vs : VectorStore) (name : String) (q : Vec) (k : Nat) : List Point :=
  match vs.find? (fun c => c.1 == name) with
  | some c => searchCollection c.2 q k
  | none => []

/-- The collection name used by both scripts. -/
def collection_name : String := "teste"

/-- `indexar_chunks`: drop and recreate the collection with dimension 768 and
dot-product distance, then add all chunks with their metadata. -/
def indexarChunks (embed : List Char → Vec) (vs : VectorStore)
    (chunks : List (List Char)) (metas : List ChunkMetadata) : VectorStore :=
  addTexts embed (replaceCollection vs collection_name 768 Distance.DOT)
    collection_name chunks metas

/-- The tail of `ler_arquivos`: `if all_chunks: indexar_chunks(...)`, else the
store is not touched. -/
def lerArquivosRun (embed : List Char → Vec) (vs : VectorStore)
    (arquivos : List Arquivo) : VectorStore :=
  let r := lerArquivos arquivos
  if r.1.isEmpty then vs else indexarChunks embed vs r.1 r.2

/-- A chat-completion message (`role`, `content`). -/
structure Message where
  role : String
  content : String
deriving DecidableEq

/-- The fixed system message of the `/chat` handler. -/
def rolemsg : Message :=
  ⟨"system", "Responda à pergunta do usuário usando documentos fornecidos no contexto. No contexto estão documentos que devem conter uma resposta.Use quantas citações e documentos forem necessários para responder à pergunta. As respostas serão em português brasil"⟩

/-- The context string assembled in the `/chat` handler: one labelled block
per retrieved chunk, in ranking order. -/
def buildContext (results : List Point) : String :=
  String.join (results.enum.map fun q =>
    "Contexto " ++ toString q.1 ++ "\n" ++ String.mk q.2.text ++ "\n\n")

/-- The provenance mapping assembled in the `/chat` handler: label to source
path. -/
def buildMapping (results : List Point) : List (String × String) :=
  results.enum.map fun q => ("Contexto " ++ toString q.1, q.2.metadata.path)

/-- The message list sent to the completion service by the `/chat` handler. -/
def chatMessages (context query : String) : List Message :=
  [rolemsg, ⟨"user", "Documents:\n" ++ context ++ "\n\nQuestion: " ++ query⟩]

/-- The `/chat` handler: retrieve the top 10 chunks, assemble the context,
call the completion service, and return its answer. The completion call
(`client_ai.chat.completions.create`) is wrapped in no `try`/`except`, so a
raised generation error propagates out of the handler unchanged. -/
def chat (embedq : String → Vec) (gen : List Message → Except String String)
    (vs : VectorStore) (query : String) : Except String String := do
  let searchResult := searchStore vs collection_name (embedq query) 10
  let context := buildContext searchResult
  let resposta ← gen (chatMessages context query)
  pure resposta

/-- Modelled from the spec: the Embedding Provider's cache and counters. The
cached embedding service belongs to the documented backend, which is not part
of the sources here; the spec specifies a cache keyed by
(model_identifier, normalized_text) with hit and miss counters, and that a
hit does not invoke the underlying model. -/
structure EmbeddingProvider where
  modelId : String
  entries : List ((String × List Char) × Vec)
  hits : Nat
  misses : Nat
  modelCalls : Nat
deriving DecidableEq

def lookupCache (entries : List ((String × List Char) × Vec))
    (key : String × List Char) : Option Vec :=
  (entries.find? (fun e => decide (e.1 = key))).map (fun e => e.2)

/-- Modelled from the spec: `embed` with caching. On hit, return the cached
vector and bump the hit counter without calling the model; on miss, call the
model, store the vector under (model_identifier, normalized_text), and bump
the miss counter. `modelCalls` counts invocations of the underlying model. -/
def embedCached (model : List Char → Vec) (norm : List Char → List Char)
    (p : EmbeddingProvider) (t : List Char) : Vec × EmbeddingProvider :=
  let key := (p.modelId, norm t)
  match lookupCache p.entries key with
  | some v => (v, { p with hits := p.hits + 1 })
  | none =>
      let v := model t
      (v, { p with entries := (key, v) :: p.entries,
                   misses := p.misses + 1, modelCalls := p.modelCalls + 1 })

/-- A concrete embedding function used in witnesses: the vector is the chunk
length. -/
def exEmbed : List Char → Vec := fun t => [Int.ofNat t.length]

/-- Concrete chunk metadata used in witnesses. -/
def exMeta : ChunkMetadata := ⟨"documents/a.pdf", "a", 0, "pdf"⟩

/-- A readable PDF file used in witnesses. -/
def exGood : Arquivo := ⟨"documents/bom.pdf", Except.ok ["texto da pagina"]⟩

/-- A corrupt PDF file used in witnesses: reading it raises. -/
def exBad : Arquivo := ⟨"documents/ruim.pdf", Except.error "PdfReadError"⟩

/-- A non-PDF file used in witnesses. -/
def exNonPdf : Arquivo := ⟨"documents/notas.txt", Except.ok ["algo"]⟩

/-- A PDF whose single page yields no extractable text, used in witnesses. -/
def exEmptyPdf : Arquivo := ⟨"documents/vazio.pdf", Except.ok [""]⟩

/-- A pre-existing vector store holding one point, used in witnesses. -/
def exStore : VectorStore :=
  [(collection_name, ⟨768, Distance.DOT, [⟨['x'], [1], exMeta⟩]⟩)]

/-- Concrete chunks used in witnesses. -/
def exChunks : List (List Char) := [['a'], ['a', 'b']]

/-- Concrete metadata list used in witnesses. -/
def exMetas : List ChunkMetadata := [exMeta, exMeta]

/-- A concrete query-embedding function used in witnesses. -/
def exEmbedQ : String → Vec := fun s => [Int.ofNat s.length]

/-- A PDF long enough to yield three chunks, used in witnesses. -/
def exLong : Arquivo :=
  ⟨"documents/longo.pdf", Except.ok [String.mk (List.replicate 1600 'a')]⟩

theorem splitChunksF_mono :
    ∀ (f₁ : Nat) (t : List Char), t.length ≤ f₁ → ∀ f₂, t.length ≤ f₂ →
      splitChunksF f₁ t = splitChunksF f₂ t := by
  intro f₁
  induction f₁ with
  | zero =>
    intro t ht f₂ h₂
    have : t = [] := List.length_eq_zero.mp (Nat.le_zero.mp ht)
    subst this
    cases f₂ <;> simp [splitChunksF]
  | succ f ih =>
    intro t ht f₂ h₂
    cases f₂ with
    | zero =>
      have : t = [] := List.length_eq_zero.mp (Nat.le_zero.mp h₂)
      subst this
      simp [splitChunksF]
    | succ f₂ =>
      simp only [splitChunksF]
      by_cases h0 : t.length = 0
      · simp [h0]
      · by_cases hs : t.length ≤ chunk_size
        · simp [hs]
        · rw [if_neg h0, if_neg h0, if_neg hs, if_neg hs,
            ih (t.drop (chunk_size - chunk_overlap))
              (by simp [chunk_size, chunk_overlap]; omega) f₂
              (by simp [chunk_size, chunk_overlap]; omega)]

theorem splitChunks_nil : splitChunks [] = [] := rfl

theorem splitChunks_small {t : List Char} (h0 : t.length ≠ 0)
    (h : t.length ≤ chunk_size) : splitChunks t = [t] := by
  obtain ⟨n, hn⟩ := Nat.exists_eq_succ_of_ne_zero h0
  unfold splitChunks
  rw [hn]
  simp only [splitChunksF]
  rw [if_neg h0, if_pos h]

theorem splitChunks_large {t : List Char} (h : chunk_size < t.length) :
    splitChunks t = t.take chunk_size ::
      splitChunks (t.drop (chunk_size - chunk_overlap)) := by
  have h8 : 800 < t.length := by simpa [chunk_size] using h
  obtain ⟨n, hn⟩ := Nat.exists_eq_succ_of_ne_zero (show t.length ≠ 0 by omega)
  have hd : (t.drop (chunk_size - chunk_overlap)).length ≤ n := by
    simp only [List.length_drop, chunk_size, chunk_overlap]
    omega
  unfold splitChunks
  rw [hn]
  simp only [splitChunksF]
  rw [if_neg (by omega), if_neg (by omega), splitChunksF_mono n _ hd _ le_rfl]

/-- Every nonempty text splits into a list whose head is `t.take chunk_size`. -/
theorem splitChunks_head {t : List Char} (h0 : t.length ≠ 0) :
    ∃ cs, splitChunks t = t.take chunk_size :: cs := by
  by_cases h : t.length ≤ chunk_size
  · exact ⟨[], by rw [splitChunks_small h0 h, List.take_of_length_le h]⟩
  · exact ⟨_, splitChunks_large (by omega)⟩

theorem splitChunks_length_le_aux :
    ∀ (n : Nat) (t : List Char), t.length ≤ n →
      ∀ c ∈ splitChunks t, c.length ≤ chunk_size := by
  intro n
  induction n with
  | zero =>
    intro t ht c hc
    have h0 : t = [] := List.length_eq_zero.mp (Nat.le_zero.mp ht)
    subst h0
    simp [splitChunks_nil] at hc
  | succ n ih =>
    intro t ht c hc
    by_cases h0 : t.length = 0
    · have he : t = [] := List.length_eq_zero.mp h0
      subst he
      simp [splitChunks_nil] at hc
    · by_cases hsm : t.length ≤ chunk_size
      · rw [splitChunks_small h0 hsm] at hc
        simp only [List.mem_singleton] at hc
        subst hc
        exact hsm
      · rw [splitChunks_large (by omega)] at hc
        rcases List.mem_cons.mp hc with h | h
        · subst h
          exact List.length_take_le _ _
        · exact ih _ (by simp only [List.length_drop, chunk_size, chunk_overlap] at *; omega) c h

theorem splitChunks_len_step {t : List Char} (h8 : 800 < t.length) :
    (splitChunks t).length = (splitChunks (t.drop 700)).length + 1 := by
  have hc : chunk_size = 800 := rfl
  have hs : chunk_size - chunk_overlap = 700 := rfl
  rw [splitChunks_large (by omega), hs, List.length_cons]

theorem splitChunks_count_4000 (t : List Char) (ht : t.length = 4000) :
    (splitChunks t).length = 6 := by
  have hc : chunk_size = 800 := rfl
  have d1 : (t.drop 700).length = 3300 := by
    simp only [List.length_drop, ht]
  have d2 : ((t.drop 700).drop 700).length = 2600 := by
    simp only [List.length_drop, ht]
  have d3 : (((t.drop 700).drop 700).drop 700).length = 1900 := by
    simp only [List.length_drop, ht]
  have d4 : ((((t.drop 700).drop 700).drop 700).drop 700).length = 1200 := by
    simp only [List.length_drop, ht]
  have d5 : (((((t.drop 700).drop 700).drop 700).drop 700).drop 700).length = 500 := by
    simp only [List.length_drop, ht]
  rw [splitChunks_len_step (by omega), splitChunks_len_step (by omega),
    splitChunks_len_step (by omega), splitChunks_len_step (by omega),
    splitChunks_len_step (by omega), splitChunks_small (by omega) (by omega)]
  simp

theorem splitChunks_overlap_aux :
    ∀ (n : Nat) (t : List Char), t.length ≤ n →
      ∀ p ∈ (splitChunks t).zip (splitChunks t).tail,
        lastN chunk_overlap p.1 = p.2.take chunk_overlap := by
  intro n
  induction n with
  | zero =>
    intro t ht p hp
    have h0 : t = [] := List.length_eq_zero.mp (Nat.le_zero.mp ht)
    subst h0
    simp [splitChunks_nil] at hp
  | succ n ih =>
    intro t ht p hp
    by_cases h0 : t.length = 0
    · have he : t = [] := List.length_eq_zero.mp h0
      subst he
      simp [splitChunks_nil] at hp
    · by_cases hsm : t.length ≤ chunk_size
      · rw [splitChunks_small h0 hsm] at hp
        simp at hp
      · have h8 : 800 < t.length := by
          simp only [chunk_size] at hsm
          omega
        have htd : (t.drop (chunk_size - chunk_overlap)).length = t.length - 700 := by
          simp only [List.length_drop, chunk_size, chunk_overlap]
        obtain ⟨cs, hcs⟩ := splitChunks_head
          (show (t.drop (chunk_size - chunk_overlap)).length ≠ 0 by omega)
        rw [splitChunks_large (by omega), hcs] at hp
        simp only [List.tail_cons, List.zip_cons_cons, List.mem_cons] at hp
        rcases hp with hp1 | hp2
        · subst hp1
          simp only
          rw [lastN, List.length_take,
            Nat.min_eq_left (by simp only [chunk_size]; omega),
            List.drop_take, List.take_take]
          norm_num [chunk_size, chunk_overlap]
        · refine ih (t.drop (chunk_size - chunk_overlap)) (by omega) p ?_
          rw [hcs]
          simpa using hp2

theorem splitChunks_reconstruct_aux :
    ∀ (n : Nat) (t : List Char), t.length ≤ n →
      reconstruct (splitChunks t) = t := by
  intro n
  induction n with
  | zero =>
    intro t ht
    have h0 : t = [] := List.length_eq_zero.mp (Nat.le_zero.mp ht)
    subst h0
    simp [splitChunks_nil, reconstruct]
  | succ n ih =>
    intro t ht
    by_cases h0 : t.length = 0
    · have he : t = [] := List.length_eq_zero.mp h0
      subst he
      simp [splitChunks_nil, reconstruct]
    · by_cases hsm : t.length ≤ chunk_size
      · rw [splitChunks_small h0 hsm]
        simp [reconstruct]
      · have h8 : 800 < t.length := by
          simp only [chunk_size] at hsm
          omega
        have htd : (t.drop (chunk_size - chunk_overlap)).length = t.length - 700 := by
          simp only [List.length_drop, chunk_size, chunk_overlap]
        obtain ⟨cs, hcs⟩ := splitChunks_head
          (show (t.drop (chunk_size - chunk_overlap)).length ≠ 0 by omega)
        have hrec := ih (t.drop (chunk_size - chunk_overlap)) (by omega)
        rw [hcs] at hrec
        rw [splitChunks_large (by omega), hcs]
        simp only [reconstruct, List.map_cons, List.flatten_cons] at hrec ⊢
        have hc1len : chunk_overlap ≤
            ((t.drop (chunk_size - chunk_overlap)).take chunk_size).length := by
          rw [List.length_take]
          simp only [chunk_size, chunk_overlap] at *
          omega
        rw [← List.append_assoc, List.append_assoc _ _, ← List.drop_append_of_le_length hc1len,
          hrec]
        have hstride : chunk_size - chunk_overlap = 700 := rfl
        rw [hstride, List.drop_drop]
        have : (700 : Nat) + chunk_overlap = 800 := rfl
        rw [this]
        have hc800 : chunk_size = 800 := rfl
        rw [hc800, List.take_append_drop]

/-- C1: for every input text, every chunk produced by the chunker configured
with `chunk_size = 800` and `chunk_overlap = 100` has length at most
`chunk_size` (hence at most `chunk_size` plus any overlap tolerance). -/
theorem chunk_length_bounded (t c : List Char) (hc : c ∈ splitChunks t) :
    c.length ≤ chunk_size :=
  splitChunks_length_le_aux t.length t le_rfl c hc

theorem chunk_length_bounded_witness :
    (['a', 'b'] : List Char) ∈ splitChunks ['a', 'b'] ∧
      (['a', 'b'] : List Char).length ≤ chunk_size :=
  ⟨by decide, chunk_length_bounded ['a', 'b'] ['a', 'b'] (by decide)⟩

/-- C2 (amended): for every input text and every pair of consecutive chunks,
the last `chunk_overlap` characters of chunk i are byte-identical to the
first `chunk_overlap` characters of chunk i+1; and a 4000-character text
with chunk_size 800 / overlap 100 yields 6 chunks (not 5 as claimed). -/
theorem chunk_overlap_pairs_and_count :
    (∀ (t : List Char), ∀ p ∈ (splitChunks t).zip (splitChunks t).tail,
        lastN chunk_overlap p.1 = p.2.take chunk_overlap) ∧
      ∀ (t : List Char), t.length = 4000 → (splitChunks t).length = 6 :=
  ⟨fun t p hp => splitChunks_overlap_aux t.length t le_rfl p hp,
   fun t ht => splitChunks_count_4000 t ht⟩

theorem splitChunks_replicate_900 :
    splitChunks (List.replicate 900 'a') =
      [(List.replicate 900 'a').take chunk_size,
       (List.replicate 900 'a').drop (chunk_size - chunk_overlap)] := by
  rw [splitChunks_large (by simp only [List.length_replicate]; decide),
    splitChunks_small
      (by simp only [List.length_drop, List.length_replicate]; decide)
      (by simp only [List.length_drop, List.length_replicate]; decide)]

set_option maxRecDepth 40000 in
theorem chunk_overlap_pairs_and_count_witness :
    lastN chunk_overlap ((List.replicate 900 'a').take chunk_size) =
        ((List.replicate 900 'a').drop (chunk_size - chunk_overlap)).take chunk_overlap ∧
      (splitChunks (List.replicate 4000 'a')).length = 6 :=
  ⟨chunk_overlap_pairs_and_count.1 (List.replicate 900 'a')
      ((List.replicate 900 'a').take chunk_size,
       (List.replicate 900 'a').drop (chunk_size - chunk_overlap))
      (by rw [splitChunks_replicate_900]; exact List.mem_cons_self _ _),
   chunk_overlap_pairs_and_count.2 (List.replicate 4000 'a')
      (by rw [List.length_replicate])⟩

/-- C2 as stated is false: a 4000-character text chunked with
chunk_size 800 / overlap 100 yields 6 chunks, not 5. -/
theorem chunk_count_4000_ne_five :
    (splitChunks (List.replicate 4000 'a')).length ≠ 5 := by
  rw [splitChunks_count_4000 (List.replicate 4000 'a') (by rw [List.length_replicate])]
  decide

/-- C3: concatenating each chunk's non-overlapping portion (chunk 0 in full,
then each later chunk with its leading `chunk_overlap` characters removed)
reconstructs the original input text exactly. -/
theorem chunks_reconstruct_original (t : List Char) :
    reconstruct (splitChunks t) = t :=
  splitChunks_reconstruct_aux t.length t le_rfl

/-- C4: the embedding provider's cache is keyed by (model identifier,
normalized text): embedding the same text twice with the same model identity
returns bit-identical vectors, does not invoke the underlying model on the
second call (`modelCalls` unchanged), and increments the hit counter, not the
miss counter. -/
theorem embed_twice_cache_hit (model : List Char → Vec) (norm : List Char → List Char)
    (p : EmbeddingProvider) (t : List Char) :
    (embedCached model norm (embedCached model norm p t).2 t).1
        = (embedCached model norm p t).1 ∧
    (embedCached model norm (embedCached model norm p t).2 t).2.hits
        = (embedCached model norm p t).2.hits + 1 ∧
    (embedCached model norm (embedCached model norm p t).2 t).2.misses
        = (embedCached model norm p t).2.misses ∧
    (embedCached model norm (embedCached model norm p t).2 t).2.modelCalls
        = (embedCached model norm p t).2.modelCalls := by
  cases h : lookupCache p.entries (p.modelId, norm t) with
  | some v => simp [embedCached, h]
  | none =>
      have h2 : lookupCache (((p.modelId, norm t), model t) :: p.entries)
          (p.modelId, norm t) = some (model t) := by
        simp [lookupCache]
      simp [embedCached, h, h2]

/-- C5 is false on this code: with a generation client that fails (quota
exhausted), the `/chat` request does not complete with a fallback answer; the
raw generation error is propagated to the handler's boundary. -/
theorem chat_error_counterexample :
    chat (fun _ => []) (fun _ => Except.error "quota") [] "O que é CTA?"
      = Except.error "quota" := rfl

/-- C5 (amended): when the LLM generation call fails, the `/chat` handler
propagates the raw generation error to the client boundary; no fallback
answer is produced, since there is no error handling around the completion
call. -/
theorem chat_propagates_generation_error (embedq : String → Vec)
    (gen : List Message → Except String String) (vs : VectorStore) (query e : String)
    (h : ∀ msgs, gen msgs = Except.error e) :
    chat embedq gen vs query = Except.error e := by
  simp [chat, h]

theorem chat_propagates_generation_error_witness :
    chat exEmbedQ (fun _ => Except.error "timeout") exStore "pergunta"
      = Except.error "timeout" :=
  chat_propagates_generation_error exEmbedQ _ exStore "pergunta" "timeout" (fun _ => rfl)

/-- C6: replacing the collection (drop and recreate with dimension 768 and
dot-product metric) and then searching before any add returns the empty
result set for every query vector and every k: no data from the prior
collection survives. -/
theorem replace_then_search_empty (vs : VectorStore) (q : Vec) (k : Nat) :
    searchStore (replaceCollection vs collection_name 768 Distance.DOT)
      collection_name q k = [] := by
  simp [searchStore, replaceCollection, createCollection, searchCollection]

/-- C7: searching a collection freshly populated with N chunks, with N < k,
returns exactly N results, each among the inserted points, ordered best-first
by dot-product similarity; k larger than the collection size is not an
error. -/
theorem search_returns_all_when_k_large (embed : List Char → Vec) (vs : VectorStore)
    (chunks : List (List Char)) (metas : List ChunkMetadata) (q : Vec) (k : Nat)
    (hlen : metas.length = chunks.length) (hk : chunks.length < k) :
    (searchStore (indexarChunks embed vs chunks metas) collection_name q k).length
        = chunks.length ∧
    (∀ p ∈ searchStore (indexarChunks embed vs chunks metas) collection_name q k,
        p ∈ (chunks.zip metas).map fun c => Point.mk c.1 (embed c.1) c.2) ∧
    (searchStore (indexarChunks embed vs chunks metas) collection_name q k).Pairwise
        (fun a b => dotProduct q b.vector ≤ dotProduct q a.vector) := by
  have hfind : (indexarChunks embed vs chunks metas).find? (fun c => c.1 == collection_name)
      = some (collection_name,
          ⟨768, Distance.DOT, (chunks.zip metas).map fun c => Point.mk c.1 (embed c.1) c.2⟩) := by
    simp [indexarChunks, addTexts, replaceCollection, createCollection]
  have hslen : ((chunks.zip metas).map fun c => Point.mk c.1 (embed c.1) c.2).length
      = chunks.length := by
    simp [List.length_zip, hlen]
  have hsearch : searchStore (indexarChunks embed vs chunks metas) collection_name q k
      = ((chunks.zip metas).map fun c => Point.mk c.1 (embed c.1) c.2).mergeSort
          (fun a b => decide (dotProduct q b.vector ≤ dotProduct q a.vector)) := by
    rw [searchStore, hfind]
    simp only [searchCollection]
    apply List.take_of_length_le
    rw [List.length_mergeSort, hslen]
    omega
  refine ⟨?_, ?_, ?_⟩
  · rw [hsearch, List.length_mergeSort, hslen]
  · intro p hp
    rw [hsearch] at hp
    exact List.mem_mergeSort.mp hp
  · rw [hsearch]
    have hs : (((chunks.zip metas).map fun c => Point.mk c.1 (embed c.1) c.2).mergeSort
        (fun a b => decide (dotProduct q b.vector ≤ dotProduct q a.vector))).Pairwise
        (fun a b => decide (dotProduct q b.vector ≤ dotProduct q a.vector) = true) :=
      List.sorted_mergeSort
        (fun a b c hab hbc => by
          simp only [decide_eq_true_eq] at *
          exact le_trans hbc hab)
        (fun a b => by
          simp only [Bool.or_eq_true, decide_eq_true_eq]
          exact le_total _ _)
        ((chunks.zip metas).map fun c => Point.mk c.1 (embed c.1) c.2)
    exact hs.imp (fun hab => of_decide_eq_true hab)

theorem search_returns_all_when_k_large_witness :
    (searchStore (indexarChunks exEmbed [] exChunks exMetas) collection_name [1] 3).length
        = exChunks.length ∧
    (∀ p ∈ searchStore (indexarChunks exEmbed [] exChunks exMetas) collection_name [1] 3,
        p ∈ (exChunks.zip exMetas).map fun c => Point.mk c.1 (exEmbed c.1) c.2) ∧
    (searchStore (indexarChunks exEmbed [] exChunks exMetas) collection_name [1] 3).Pairwise
        (fun a b => dotProduct [1] b.vector ≤ dotProduct [1] a.vector) :=
  search_returns_all_when_k_large exEmbed [] exChunks exMetas [1] 3 (by decide) (by decide)

/-- C8: during batch ingestion, a failure while reading one file (a corrupt
PDF) aborts only that file's processing: the extracted batch, and hence the
indexed store, is the same as for the batch without the corrupt file. -/
theorem batch_error_isolated (embed : List Char → Vec) (vs : VectorStore)
    (pre post : List Arquivo) (bad : Arquivo) (e : String)
    (hb : bad.pages = Except.error e) :
    lerArquivos (pre ++ bad :: post) = lerArquivos (pre ++ post) ∧
    lerArquivosRun embed vs (pre ++ bad :: post)
        = lerArquivosRun embed vs (pre ++ post) := by
  have hbad : processaArquivo bad = ([], []) := by
    unfold processaArquivo
    rw [hb]
    split <;> rfl
  have h1 : lerArquivos (pre ++ bad :: post) = lerArquivos (pre ++ post) := by
    induction pre with
    | nil => simp [lerArquivos, hbad]
    | cons a rest ih => simp [lerArquivos, ih]
  exact ⟨h1, by simp only [lerArquivosRun, h1]⟩

theorem batch_error_isolated_witness :
    lerArquivos [exGood, exBad] = lerArquivos [exGood] ∧
    lerArquivosRun exEmbed exStore [exGood, exBad]
        = lerArquivosRun exEmbed exStore [exGood] :=
  batch_error_isolated exEmbed exStore [exGood] [] exBad "PdfReadError" rfl

/-- C9: the "page" metadata field attached to a file's i-th chunk equals
i / 2 (integer division), a function of the chunk's position in the list
only. -/
theorem page_metadata_floor_half (a : Arquivo) (i : Nat) (m : ChunkMetadata)
    (h : (processaArquivo a).2[i]? = some m) :
    m.page = i / 2 := by
  unfold processaArquivo at h
  by_cases hpdf : ((".pdf".data).isSuffixOf a.path.data) = true
  · rw [if_pos hpdf] at h
    cases hp : a.pages with
    | error e =>
        rw [hp] at h
        simp at h
    | ok pages =>
        rw [hp] at h
        simp only [List.getElem?_map, List.getElem?_enum] at h
        cases hc : (splitChunks (buildConteudo pages).data)[i]? with
        | none => rw [hc] at h; simp at h
        | some c =>
            rw [hc] at h
            simp at h
            subst h
            rfl
  · rw [if_neg hpdf] at h
    simp at h

set_option maxRecDepth 100000 in
theorem page_metadata_floor_half_witness :
    (ChunkMetadata.mk "documents/longo.pdf" "longo" 1 "pdf").page = 2 / 2 :=
  page_metadata_floor_half exLong 2 ⟨"documents/longo.pdf", "longo", 1, "pdf"⟩ (by decide)

/-- C10: when an ingestion run extracts zero chunks from all of its input
files (corrupt, non-PDF, or empty files), the indexing step never runs, so
the pre-existing vector collection is left entirely unchanged. -/
theorem zero_chunks_store_unchanged (embed : List Char → Vec) (vs : VectorStore)
    (arquivos : List Arquivo) (h : ∀ a ∈ arquivos, (processaArquivo a).1 = []) :
    lerArquivosRun embed vs arquivos = vs := by
  have hz : ∀ l : List Arquivo, (∀ a ∈ l, (processaArquivo a).1 = []) →
      (lerArquivos l).1 = [] := by
    intro l
    induction l with
    | nil => intro _; rfl
    | cons a rest ih =>
        intro hl
        simp [lerArquivos, hl a (List.mem_cons_self a rest),
          ih fun b hb => hl b (List.mem_cons_of_mem a hb)]
  simp [lerArquivosRun, hz arquivos h]

theorem zero_chunks_store_unchanged_witness :
    lerArquivosRun exEmbed exStore [exBad, exNonPdf, exEmptyPdf] = exStore :=
  zero_chunks_store_unchanged exEmbed exStore [exBad, exNonPdf, exEmptyPdf] (by decide)

end CTA
